import Mathlib

/-!
Shallow embedding of `gologin_api.py` (GoLogin account manager): the account
store with its reconciled load (backfill + lease-expiry sweep), the adoption
(lease) operations `set_adoption` / `save_account`, the `/accounts/<name>/adopt`
endpoint, and the per-account profile-stats storage.

Modelling choices, each mirroring the Python source:
  * Time is an integer number of seconds; `datetime.now()` is passed in as an
    explicit `now` parameter (one sample per request).  The 5-minute
    `unlock_timeout` is 300 seconds.
  * An ISO-timestamp string is modelled by `TimeStr`: `valid t` is a string
    that `datetime.fromisoformat` parses to the instant `t` (and
    `datetime.now().isoformat()` produces `valid now`); `invalid s` is a
    non-ISO string `s`, on which `fromisoformat` raises `ValueError` (here:
    returns `none`; the Python `except` clause catches it and leaves the
    record untouched).
  * A JSON account record is `AccountRecord`; a field wrapped in an outer
    `Option` distinguishes a *missing* key (`none`) from a present one, and
    for `adopted_by`/`adopted_at` the inner `Option` distinguishes JSON
    `null` from a value, matching `dict.get` semantics.
  * The accounts file on disk is `StoreFile`: missing file, unparseable JSON,
    parseable-but-not-a-dict, or a dict (`table`).  Python dicts are embedded
    as association lists with insertion order preserved; `d[k] = v` keeps the
    position of an existing key and appends a new one (`insertA`).
  * `write_json_file` failures (IOError is logged and swallowed) are not
    modelled: a persist replaces the file content.
-/

namespace Gologin

/-- A string stored in an `adopted_at` field: either a valid ISO timestamp
denoting the instant `t`, or a malformed string `s`. -/
inductive TimeStr where
  | valid (t : Int)
  | invalid (s : String)
deriving DecidableEq

/-- `datetime.fromisoformat`: parses a valid timestamp, raises (returns
`none`) on a malformed one. -/
def fromisoformat : TimeStr → Option Int
  | .valid t => some t
  | .invalid _ => none

/-- Python truthiness of the timestamp string: every valid ISO string is
non-empty hence truthy; a malformed string is truthy iff non-empty. -/
def TimeStr.truthy : TimeStr → Bool
  | .valid _ => true
  | .invalid s => !(s == "")

/-- `unlock_timeout = timedelta(minutes=5)`, in seconds. -/
def unlockTimeout : Int := 300

/-- One JSON account record.  The outer `Option` on each field is key
presence; the inner `Option` on `adopted_by`/`adopted_at` is JSON `null`. -/
structure AccountRecord where
  token : Option String
  profiles : Option (List String)
  adopted : Option Bool
  adopted_by : Option (Option String)
  adopted_at : Option (Option TimeStr)
deriving DecidableEq

/-- The on-disk accounts file (`Config.ACCOUNTS_FILE`). -/
inductive StoreFile where
  | missing
  | corrupt
  | notDict
  | table (m : List (String × AccountRecord))
deriving DecidableEq

/-- `read_json_file` followed by the `isinstance(accounts, dict)` guard of
`get_all_accounts`: a missing file or unparseable JSON reads as `None`, and
anything that is not a dict is replaced by `{}`. -/
def readStore : StoreFile → List (String × AccountRecord)
  | .table m => m
  | _ => []

/-- `d.get(k)` on a Python dict embedded as an association list. -/
def lookupA {α : Type} (k : String) : List (String × α) → Option α
  | [] => none
  | p :: rest => if p.1 = k then some p.2 else lookupA k rest

/-- `d[k] = v`: overwrite in place when the key exists, append otherwise. -/
def insertA {α : Type} (k : String) (v : α) (l : List (String × α)) :
    List (String × α) :=
  if ∃ p ∈ l, p.1 = k then
    l.map (fun p => if p.1 = k then (k, v) else p)
  else l ++ [(k, v)]

/-- The backfill step of `get_all_accounts`: each of the three adoption keys
that is absent is set to its unleased default (`a.field.getD d` keeps a
present field and supplies the default for an absent one); the Boolean is the
contribution to the `changed` flag (true iff some key was absent). -/
def backfill (a : AccountRecord) : AccountRecord × Bool :=
  ({ a with
      adopted := some (a.adopted.getD false),
      adopted_by := some (a.adopted_by.getD none),
      adopted_at := some (a.adopted_at.getD none) },
   a.adopted.isNone || a.adopted_by.isNone || a.adopted_at.isNone)

/-- Truthiness of `a.get("adopted")`: a missing key reads as `None` (falsy). -/
def getTruthyBool : Option Bool → Bool
  | some b => b
  | none => false

/-- Truthiness of `a.get("adopted_at")`: missing key or JSON `null` is falsy,
a string is truthy iff non-empty. -/
def getTruthyTime : Option (Option TimeStr) → Bool
  | some (some ts) => ts.truthy
  | _ => false

/-- Reset a record to the unleased state, as the auto-unlock branch does. -/
def clearAdoption (a : AccountRecord) : AccountRecord :=
  { a with adopted := some false, adopted_by := some none, adopted_at := some none }

/-- The auto-unlock (expiry sweep) step of `get_all_accounts`: when the record
is adopted and carries a truthy `adopted_at`, parse it; a stale lease
(`now - adopted_time > unlock_timeout`) is cleared, a parse failure is caught
and leaves the record untouched. -/
def sweep (now : Int) (a : AccountRecord) : AccountRecord × Bool :=
  if getTruthyBool a.adopted && getTruthyTime a.adopted_at then
    match a.adopted_at with
    | some (some ts) =>
      match fromisoformat ts with
      | some t =>
        if now - t > unlockTimeout then (clearAdoption a, true) else (a, false)
      | none => (a, false)
    | _ => (a, false)
  else (a, false)

/-- The whole per-record body of the `get_all_accounts` loop: backfill, then
the expiry sweep on the backfilled record; `changed` is the disjunction. -/
def reconcileRecord (now : Int) (a : AccountRecord) : AccountRecord × Bool :=
  ((sweep now (backfill a).1).1, (backfill a).2 || (sweep now (backfill a).1).2)

/-- The `get_all_accounts` loop over all records, accumulating `changed`. -/
def reconcileList (now : Int) :
    List (String × AccountRecord) → List (String × AccountRecord) × Bool
  | [] => ([], false)
  | p :: rest =>
    ((p.1, (reconcileRecord now p.2).1) :: (reconcileList now rest).1,
     (reconcileRecord now p.2).2 || (reconcileList now rest).2)

/-- `DataManager.get_all_accounts`: read the file, reconcile every record,
persist the mapping iff anything changed, and return the mapping.  The second
component is the resulting on-disk file. -/
def get_all_accounts (now : Int) (f : StoreFile) :
    List (String × AccountRecord) × StoreFile :=
  ((reconcileList now (readStore f)).1,
   if (reconcileList now (readStore f)).2 then
     .table (reconcileList now (readStore f)).1
   else f)

/-- `DataManager.set_adoption`: reload reconciled accounts, fail when the
account is unknown, otherwise overwrite the three adoption fields (holder and
timestamp are kept only on a claim) and persist.  Returns the `(ok, err)`
pair and the resulting file. -/
def set_adoption (now : Int) (name : String) (adopted : Bool)
    (holder : Option String) (f : StoreFile) :
    (Bool × Option String) × StoreFile :=
  let gf := get_all_accounts now f
  match lookupA name gf.1 with
  | none => ((false, some "Account not found"), gf.2)
  | some acct =>
    ((true, none),
     .table (insertA name
       { acct with
          adopted := some adopted,
          adopted_by := some (if adopted then holder else none),
          adopted_at :=
            some (if adopted then some (TimeStr.valid now) else none) }
       gf.1))

/-- The record written by `DataManager.save_account`. -/
def freshAccount (token : String) : AccountRecord :=
  { token := some token, profiles := some [], adopted := some false,
    adopted_by := some none, adopted_at := some none }

/-- `DataManager.save_account`: reload reconciled accounts, overwrite the
named record with a fresh unleased one, persist, return `True`. -/
def save_account (now : Int) (name token : String) (f : StoreFile) :
    Bool × StoreFile :=
  (true, .table (insertA name (freshAccount token) (get_all_accounts now f).1))

/-- Responses of the `/accounts/<name>/adopt` endpoint. -/
inductive AdoptResp where
  /-- 400: `action` is neither `"claim"` nor `"release"`. -/
  | badAction
  /-- 404: unknown account. -/
  | notFound
  /-- 400: claim without a truthy `adopted_by`. -/
  | missingHolder
  /-- 409: already adopted; the message names the current holder. -/
  | conflict (holder : Option String)
  /-- 500: `set_adoption` failed during a claim. -/
  | claimFailed (err : Option String)
  /-- 500: `set_adoption` failed during a release. -/
  | releaseFailed (err : Option String)
  /-- 200: `{"status": "claimed", ...}`. -/
  | claimed (name : String) (holder : Option String)
  /-- 200: `{"status": "released", ...}`. -/
  | released (name : String)
deriving DecidableEq

/-- Python falsiness of `data.get("adopted_by")`: absent, `null`, or `""`. -/
def falsyStr : Option String → Bool
  | none => true
  | some s => s == ""

/-- The `adopt_account` endpoint: validate the action, load reconciled
accounts, 404 on an unknown name; a claim needs a truthy holder and conflicts
when the account is adopted by a different holder, otherwise both claim and
release go through `set_adoption`.  Returns the HTTP response and the
resulting on-disk file. -/
def adopt_account (now : Int) (name : String) (action vps : Option String)
    (f : StoreFile) : AdoptResp × StoreFile :=
  if action ≠ some "claim" ∧ action ≠ some "release" then (.badAction, f)
  else
    let gf := get_all_accounts now f
    match lookupA name gf.1 with
    | none => (.notFound, gf.2)
    | some acct =>
      if action = some "claim" then
        if falsyStr vps then (.missingHolder, gf.2)
        else if getTruthyBool acct.adopted &&
                !(acct.adopted_by.getD none == vps) then
          (.conflict (acct.adopted_by.getD none), gf.2)
        else
          match set_adoption now name true vps gf.2 with
          | ((true, _), f2) => (.claimed name vps, f2)
          | ((false, err), f2) => (.claimFailed err, f2)
      else
        match set_adoption now name false none gf.2 with
        | ((true, _), f2) => (.released name, f2)
        | ((false, err), f2) => (.releaseFailed err, f2)

/-- A value inside a stats JSON document: an opaque string or a timestamp
string (the shape `save_stats` writes into `last_updated`). -/
inductive JVal where
  | str (s : String)
  | time (t : TimeStr)
deriving DecidableEq

/-- A stats JSON document, a dict embedded as an association list. -/
abbrev StatsDoc : Type := List (String × JVal)

/-- The service's persistent state: the accounts file plus the per-account
stats files (`data/profile_stats/<name>_stats.json`, keyed by account name). -/
structure AppState where
  accountsFile : StoreFile
  profileStats : List (String × StatsDoc)
deriving DecidableEq

/-- Responses of the two `/accounts/<name>/stats` endpoints. -/
inductive StatsResp where
  /-- 400: missing or falsy JSON body. -/
  | badRequest
  /-- 200: `{"status": "success", ...}` from the POST. -/
  | savedOk (name : String)
  /-- 404: no stats file for this account. -/
  | statsNotFound (name : String)
  /-- 200: the stored stats document. -/
  | statsBody (doc : List (String × JVal))
deriving DecidableEq

/-- `DataManager.save_profile_stats`: write the per-account stats file. -/
def save_profile_stats (name : String) (doc : StatsDoc) (st : AppState) :
    AppState :=
  { st with profileStats := insertA name doc st.profileStats }

/-- `DataManager.get_profile_stats`: read the per-account stats file,
`none` when it does not exist. -/
def get_profile_stats (name : String) (st : AppState) : Option StatsDoc :=
  lookupA name st.profileStats

/-- The POST `/accounts/<name>/stats` endpoint `save_stats`: reject a missing
or empty (falsy) body, otherwise stamp `last_updated` with the current time
and persist the document. -/
def save_stats (now : Int) (name : String) (body : Option StatsDoc)
    (st : AppState) : StatsResp × AppState :=
  match body with
  | none => (.badRequest, st)
  | some doc =>
    if doc.isEmpty then (.badRequest, st)
    else
      (.savedOk name,
       save_profile_stats name
         (insertA "last_updated" (JVal.time (TimeStr.valid now)) doc) st)

/-- The GET `/accounts/<name>/stats` endpoint `get_stats`: 404 when no stats
were saved, otherwise the stored document. -/
def get_stats (name : String) (st : AppState) : StatsResp :=
  match get_profile_stats name st with
  | none => .statsNotFound name
  | some doc => .statsBody doc

/-- A record is in reconciled normal form for the instant `now`: all three
adoption keys are present, and no live lease carries a stale valid
timestamp. -/
def NormalAt (now : Int) (a : AccountRecord) : Prop :=
  a.adopted.isSome ∧ a.adopted_by.isSome ∧ a.adopted_at.isSome ∧
    ∀ t, a.adopted = some true →
      a.adopted_at = some (some (TimeStr.valid t)) → now - t ≤ unlockTimeout

/-- The spec's record invariant, on records whose three adoption keys are
present: `adopted == false` ⇔ `adopted_by == null` ⇔ `adopted_at == null`. -/
def RecInv (a : AccountRecord) : Prop :=
  a.adopted.isSome ∧ a.adopted_by.isSome ∧ a.adopted_at.isSome ∧
  (a.adopted = some false ↔ a.adopted_by = some none) ∧
  (a.adopted = some false ↔ a.adopted_at = some none)

/-- The record invariant read through `dict.get` semantics, where a missing
key counts as its unleased default: the form of the invariant that arbitrary
persisted records (possibly missing keys) can satisfy. -/
def EffInv (a : AccountRecord) : Prop :=
  (a.adopted.getD false = false ↔ a.adopted_by.getD none = none) ∧
  (a.adopted.getD false = false ↔ a.adopted_at.getD none = none)

instance (a : AccountRecord) : Decidable (RecInv a) := by
  unfold RecInv; infer_instance

instance (a : AccountRecord) : Decidable (EffInv a) := by
  unfold EffInv; infer_instance

/-! ### Concrete fixtures, used to instantiate the theorems below -/

/-- Fixture: a record leased to `"vps-1"` at instant 0. -/
def heldRec : AccountRecord :=
  { token := some "tok", profiles := some [], adopted := some true,
    adopted_by := some (some "vps-1"),
    adopted_at := some (some (TimeStr.valid 0)) }

/-- Fixture: a free (unleased) record. -/
def freeRec : AccountRecord :=
  { token := some "tok", profiles := some [], adopted := some false,
    adopted_by := some none, adopted_at := some none }

/-- Fixture: a legacy record with all three adoption keys absent. -/
def bareRec : AccountRecord :=
  { token := some "tok", profiles := none, adopted := none,
    adopted_by := none, adopted_at := none }

/-- Fixture: a record whose present adoption fields are mutually
inconsistent (`adopted=false` yet a non-null `adopted_by`). -/
def oddRec : AccountRecord :=
  { token := some "tok", profiles := some [], adopted := some false,
    adopted_by := some (some "h"), adopted_at := some none }

/-- Fixture: a record leased to `"vps-1"` whose `adopted_at` is not a valid
ISO timestamp string. -/
def badTimeRec : AccountRecord :=
  { token := some "tok", profiles := some [], adopted := some true,
    adopted_by := some (some "vps-1"),
    adopted_at := some (some (TimeStr.invalid "garbage")) }

/-! ### Association-list lemmas -/

theorem lookupA_map_overwrite {α : Type} {k : String} {v : α} :
    ∀ {l : List (String × α)}, (∃ p ∈ l, p.1 = k) →
      lookupA k (l.map fun p => if p.1 = k then (k, v) else p) = some v := by
  intro l hmem
  induction l with
  | nil => simp at hmem
  | cons p rest ih =>
    by_cases hp : p.1 = k
    · simp [lookupA, hp]
    · rcases hmem with ⟨q, hq, hqk⟩
      rcases List.mem_cons.mp hq with h | h
      · exact absurd (h ▸ hqk) hp
      · simpa [lookupA, hp] using ih ⟨q, h, hqk⟩

theorem lookupA_append_self {α : Type} {k : String} {v : α} :
    ∀ {l : List (String × α)}, ¬(∃ p ∈ l, p.1 = k) →
      lookupA k (l ++ [(k, v)]) = some v := by
  intro l hmem
  induction l with
  | nil => simp [lookupA]
  | cons p rest ih =>
    push_neg at hmem
    have hp : ¬p.1 = k := hmem p (List.mem_cons_self p rest)
    have : ¬(∃ q ∈ rest, q.1 = k) := by
      rintro ⟨q, hq, hqk⟩
      exact hmem q (List.mem_cons_of_mem p hq) hqk
    simpa [lookupA, hp] using ih this

theorem lookupA_insertA_self {α : Type} (k : String) (v : α)
    (l : List (String × α)) : lookupA k (insertA k v l) = some v := by
  unfold insertA
  split
  · exact lookupA_map_overwrite (by assumption)
  · exact lookupA_append_self (by assumption)

theorem mem_insertA {α : Type} {k : String} {v : α} {l : List (String × α)}
    {p : String × α} (hp : p ∈ insertA k v l) : p = (k, v) ∨ p ∈ l := by
  unfold insertA at hp
  split at hp
  · rcases List.mem_map.mp hp with ⟨q, hq, hqe⟩
    by_cases h : q.1 = k
    · simp only [if_pos h] at hqe; left; exact hqe.symm
    · simp only [if_neg h] at hqe; right; exact hqe ▸ hq
  · rcases List.mem_append.mp hp with h | h
    · right; exact h
    · left; exact List.mem_singleton.mp h

/-! ### Per-record reconciliation lemmas -/

theorem reconcileRecord_normalAt (now : Int) (a : AccountRecord) :
    NormalAt now (reconcileRecord now a).1 := by
  rcases a with ⟨tok, prof, ad, ab, at_⟩
  rcases ad with _ | b <;> (try rcases b) <;> rcases at_ with _ | (_ | (t | s)) <;>
    simp_all [NormalAt, reconcileRecord, backfill, sweep, getTruthyBool,
      getTruthyTime, TimeStr.truthy, fromisoformat, clearAdoption] <;>
    split_ifs <;>
    simp_all [NormalAt, reconcileRecord, backfill, sweep, getTruthyBool,
      getTruthyTime, TimeStr.truthy, fromisoformat, clearAdoption] <;>
    omega

theorem reconcileRecord_fix {now : Int} {a : AccountRecord}
    (h : NormalAt now a) : reconcileRecord now a = (a, false) := by
  rcases a with ⟨tok, prof, ad, ab, at_⟩
  obtain ⟨h1, h2, h3, h4⟩ := h
  rcases ad with _ | b <;> (try rcases b) <;> rcases ab with _ | x <;>
    rcases at_ with _ | (_ | (t | s)) <;>
    simp_all [reconcileRecord, backfill, sweep, getTruthyBool, getTruthyTime,
      TimeStr.truthy, fromisoformat, clearAdoption] <;>
    split_ifs <;>
    simp_all <;> omega

theorem reconcileRecord_idem (now : Int) (a : AccountRecord) :
    reconcileRecord now (reconcileRecord now a).1 =
      ((reconcileRecord now a).1, false) :=
  reconcileRecord_fix (reconcileRecord_normalAt now a)

theorem reconcileRecord_nochange {now : Int} {a : AccountRecord}
    (h : (reconcileRecord now a).2 = false) : (reconcileRecord now a).1 = a := by
  rcases a with ⟨tok, prof, ad, ab, at_⟩
  rcases ad with _ | b <;> (try rcases b) <;> rcases ab with _ | x <;>
    rcases at_ with _ | (_ | (t | s)) <;>
    simp_all [reconcileRecord, backfill, sweep, getTruthyBool, getTruthyTime,
      TimeStr.truthy, fromisoformat, clearAdoption] <;>
    split_ifs at h ⊢ <;> simp_all

theorem reconcileRecord_free {now : Int} {a : AccountRecord}
    (had : a.adopted = some false) (hby : a.adopted_by.isSome)
    (hat : a.adopted_at.isSome) : reconcileRecord now a = (a, false) :=
  reconcileRecord_fix ⟨had ▸ rfl, hby, hat, fun t ht => by simp [had] at ht⟩

theorem reconcileRecord_expired {now t : Int} {a : AccountRecord}
    (had : a.adopted = some true)
    (hat : a.adopted_at = some (some (TimeStr.valid t)))
    (hexp : now - t > unlockTimeout) :
    (reconcileRecord now a).1 = clearAdoption a := by
  rcases a with ⟨tok, prof, ad, ab, at_⟩
  simp_all [reconcileRecord, backfill, sweep, getTruthyBool, getTruthyTime,
    TimeStr.truthy, fromisoformat, clearAdoption]

theorem reconcileRecord_keeps {now : Int} (a : AccountRecord) :
    (reconcileRecord now a).1.token = a.token ∧
      (reconcileRecord now a).1.profiles = a.profiles := by
  rcases a with ⟨tok, prof, ad, ab, at_⟩
  rcases ad with _ | b <;> (try rcases b) <;> rcases at_ with _ | (_ | (t | s)) <;>
    simp_all [reconcileRecord, backfill, sweep, getTruthyBool, getTruthyTime,
      TimeStr.truthy, fromisoformat, clearAdoption] <;>
    split_ifs <;> simp_all

theorem reconcileRecord_defaults {now : Int} (a : AccountRecord) :
    (a.adopted = none → (reconcileRecord now a).1.adopted = some false) ∧
    (a.adopted_by = none → (reconcileRecord now a).1.adopted_by = some none) ∧
    (a.adopted_at = none → (reconcileRecord now a).1.adopted_at = some none) := by
  rcases a with ⟨tok, prof, ad, ab, at_⟩
  rcases ad with _ | b <;> (try rcases b) <;> rcases at_ with _ | (_ | (t | s)) <;>
    simp_all [reconcileRecord, backfill, sweep, getTruthyBool, getTruthyTime,
      TimeStr.truthy, fromisoformat, clearAdoption] <;>
    split_ifs <;> simp_all

theorem reconcileRecord_changed_of_missing {now : Int} {a : AccountRecord}
    (h : a.adopted = none ∨ a.adopted_by = none ∨ a.adopted_at = none) :
    (reconcileRecord now a).2 = true := by
  rcases a with ⟨tok, prof, ad, ab, at_⟩
  rcases h with h | h | h <;>
    simp_all [reconcileRecord, backfill]

theorem reconcileRecord_inv {now : Int} {a : AccountRecord}
    (h : EffInv a) : RecInv (reconcileRecord now a).1 := by
  rcases a with ⟨tok, prof, ad, ab, at_⟩
  rcases ad with _ | b <;> (try rcases b) <;> rcases ab with _ | (_ | x) <;>
    rcases at_ with _ | (_ | (t | s)) <;>
    simp_all [EffInv, RecInv, reconcileRecord, backfill, sweep, getTruthyBool,
      getTruthyTime, TimeStr.truthy, fromisoformat, clearAdoption] <;>
    split_ifs <;>
    simp_all [EffInv, RecInv, reconcileRecord, backfill, sweep, getTruthyBool,
      getTruthyTime, TimeStr.truthy, fromisoformat, clearAdoption]

/-! ### List-level reconciliation lemmas -/

theorem reconcileList_lookup (now : Int) (n : String) :
    ∀ m : List (String × AccountRecord),
      lookupA n (reconcileList now m).1 =
        Option.map (fun a => (reconcileRecord now a).1) (lookupA n m)
  | [] => by simp [reconcileList, lookupA]
  | p :: rest => by
    by_cases hp : p.1 = n
    · simp [reconcileList, lookupA, hp]
    · simp only [reconcileList, lookupA, hp, if_false]
      exact reconcileList_lookup now n rest

theorem reconcileList_nochange {now : Int} :
    ∀ {m : List (String × AccountRecord)}, (reconcileList now m).2 = false →
      (reconcileList now m).1 = m
  | [], _ => rfl
  | p :: rest, h => by
    simp only [reconcileList, Bool.or_eq_false_iff] at h ⊢
    rw [reconcileRecord_nochange h.1, reconcileList_nochange h.2]

theorem reconcileList_idem (now : Int) :
    ∀ m : List (String × AccountRecord),
      reconcileList now (reconcileList now m).1 = ((reconcileList now m).1, false)
  | [] => rfl
  | p :: rest => by
    simp only [reconcileList, reconcileRecord_idem now p.2,
      reconcileList_idem now rest, Bool.or_self]

theorem mem_reconcileList {now : Int} {m : List (String × AccountRecord)}
    {p : String × AccountRecord} (hp : p ∈ (reconcileList now m).1) :
    ∃ q ∈ m, p = (q.1, (reconcileRecord now q.2).1) := by
  induction m with
  | nil => simp [reconcileList] at hp
  | cons q rest ih =>
    simp only [reconcileList, List.mem_cons] at hp
    rcases hp with h | h
    · exact ⟨q, List.mem_cons_self q rest, h⟩
    · rcases ih h with ⟨r, hr, he⟩
      exact ⟨r, List.mem_cons_of_mem q hr, he⟩

/-! ### Store-level lemmas -/

theorem get_all_def (now : Int) (f : StoreFile) :
    get_all_accounts now f =
      ((reconcileList now (readStore f)).1,
       if (reconcileList now (readStore f)).2 then
         .table (reconcileList now (readStore f)).1
       else f) := rfl

theorem readStore_get_all (now : Int) (f : StoreFile) :
    readStore (get_all_accounts now f).2 = (get_all_accounts now f).1 := by
  rw [get_all_def]
  by_cases h : (reconcileList now (readStore f)).2 = true
  · simp only [h, if_true]
    rfl
  · simp only [Bool.not_eq_true] at h
    simp only [h, Bool.false_eq_true, if_false]
    exact (reconcileList_nochange h).symm

theorem get_all_fix {now : Int} {g : StoreFile} {m : List (String × AccountRecord)}
    (hg : readStore g = m) (hfix : reconcileList now m = (m, false)) :
    get_all_accounts now g = (m, g) := by
  rw [get_all_def, hg, hfix]
  simp

theorem get_all_again (now : Int) (f : StoreFile) :
    get_all_accounts now (get_all_accounts now f).2 =
      ((get_all_accounts now f).1, (get_all_accounts now f).2) :=
  get_all_fix (readStore_get_all now f) (reconcileList_idem now (readStore f))

theorem lookup_get_all (now : Int) (n : String) (f : StoreFile) :
    lookupA n (get_all_accounts now f).1 =
      Option.map (fun a => (reconcileRecord now a).1) (lookupA n (readStore f)) :=
  reconcileList_lookup now n (readStore f)

/-! ### Lease-operation composition lemmas -/

theorem set_adoption_found {now : Int} {name : String} {adopted : Bool}
    {holder : Option String} {f : StoreFile} {acct : AccountRecord}
    (h : lookupA name (get_all_accounts now f).1 = some acct) :
    set_adoption now name adopted holder (get_all_accounts now f).2 =
      ((true, none),
       .table (insertA name
         { acct with
            adopted := some adopted,
            adopted_by := some (if adopted then holder else none),
            adopted_at :=
              some (if adopted then some (TimeStr.valid now) else none) }
         (get_all_accounts now f).1)) := by
  unfold set_adoption
  rw [get_all_again]
  simp only [h]

theorem adopt_claim_ok {now : Int} {name hld : String} {f : StoreFile}
    {acct : AccountRecord}
    (hl : lookupA name (get_all_accounts now f).1 = some acct)
    (hh : hld ≠ "")
    (hnc : (getTruthyBool acct.adopted &&
      !(acct.adopted_by.getD none == some hld)) = false) :
    adopt_account now name (some "claim") (some hld) f =
      (.claimed name (some hld),
       .table (insertA name
         { acct with
            adopted := some true
            adopted_by := some (some hld)
            adopted_at := some (some (TimeStr.valid now)) }
         (get_all_accounts now f).1)) := by
  unfold adopt_account
  rw [if_neg (by simp)]
  simp only [hl, falsyStr, beq_iff_eq, hh, if_false, reduceIte, hnc,
    Bool.false_eq_true, set_adoption_found hl]

theorem adopt_claim_conflict {now : Int} {name hld : String} {f : StoreFile}
    {acct : AccountRecord}
    (hl : lookupA name (get_all_accounts now f).1 = some acct)
    (hh : hld ≠ "")
    (hc : (getTruthyBool acct.adopted &&
      !(acct.adopted_by.getD none == some hld)) = true) :
    adopt_account now name (some "claim") (some hld) f =
      (.conflict (acct.adopted_by.getD none), (get_all_accounts now f).2) := by
  unfold adopt_account
  rw [if_neg (by simp)]
  simp only [hl, falsyStr, beq_iff_eq, hh, if_false, reduceIte, hc, if_true]

theorem adopt_release_ok {now : Int} {name : String} {vps : Option String}
    {f : StoreFile} {acct : AccountRecord}
    (hl : lookupA name (get_all_accounts now f).1 = some acct) :
    adopt_account now name (some "release") vps f =
      (.released name,
       .table (insertA name (clearAdoption acct) (get_all_accounts now f).1)) := by
  unfold adopt_account
  rw [if_neg (by simp)]
  simp only [hl, reduceCtorEq, reduceIte, Option.some.injEq, String.reduceEq,
    set_adoption_found hl]
  rfl

theorem reconcileList_changed_of_lookup {now : Int}
    {m : List (String × AccountRecord)} {n : String} {a : AccountRecord}
    (hl : lookupA n m = some a) (hc : (reconcileRecord now a).2 = true) :
    (reconcileList now m).2 = true := by
  induction m with
  | nil => simp [lookupA] at hl
  | cons p rest ih =>
    by_cases hp : p.1 = n
    · simp only [lookupA, hp, if_true, Option.some.injEq] at hl
      simp [reconcileList, hl ▸ hc]
    · simp only [lookupA, hp, if_false] at hl
      simp [reconcileList, ih hl]

theorem adopt_notFound {now : Int} {name : String} {action vps : Option String}
    {f : StoreFile}
    (ha : action = some "claim" ∨ action = some "release")
    (hl : lookupA name (get_all_accounts now f).1 = none) :
    adopt_account now name action vps f =
      (.notFound, (get_all_accounts now f).2) := by
  unfold adopt_account
  rcases ha with rfl | rfl <;> rw [if_neg (by simp)] <;> simp [hl]

/-! ### Claim theorems -/

/-- Claim C2: a claim on an account that the reconciled view shows held by
holder `h1`, issued by a different holder `h2`, fails with HTTP 409 Conflict
whose message names `h1`, and the account's record (including `adopted_at`)
is unchanged by the failed claim. -/
theorem C2_claim_conflict (now : Int) (f : StoreFile) (n h1 h2 : String)
    (r : AccountRecord)
    (hl : lookupA n (get_all_accounts now f).1 = some r)
    (had : r.adopted = some true)
    (hby : r.adopted_by = some (some h1))
    (hne : h2 ≠ h1) (hh : h2 ≠ "") :
    adopt_account now n (some "claim") (some h2) f =
      (.conflict (some h1), (get_all_accounts now f).2) ∧
    lookupA n
      (get_all_accounts now
        (adopt_account now n (some "claim") (some h2) f).2).1 = some r := by
  have hc : (getTruthyBool r.adopted &&
      !(r.adopted_by.getD none == some h2)) = true := by
    simp only [had, hby, getTruthyBool, Option.getD_some, Bool.true_and,
      Bool.not_eq_true', beq_eq_false_iff_ne, ne_eq, Option.some.injEq]
    exact fun hq => hne hq.symm
  have h := adopt_claim_conflict hl hh hc
  rw [hby] at h
  refine ⟨h, ?_⟩
  simp only [h, get_all_again]
  exact hl

/-- Witness for C2 at a concrete store with a live lease. -/
theorem C2_claim_conflict_witness :
    lookupA "a" (get_all_accounts 100 (.table [("a", heldRec)])).1 =
      some heldRec ∧
    adopt_account 100 "a" (some "claim") (some "vps-2")
        (.table [("a", heldRec)]) =
      (.conflict (some "vps-1"),
       (get_all_accounts 100 (.table [("a", heldRec)])).2) :=
  ⟨by decide,
   (C2_claim_conflict 100 (.table [("a", heldRec)]) "a" "vps-1" "vps-2"
      heldRec (by decide) (by decide) (by decide) (by decide) (by decide)).1⟩

/-- Claim C3: a release on any existing account succeeds with no
holder-identity check — whatever the current state and whatever (if any)
holder the caller supplies — and leaves the record Free with token and
profiles preserved. -/
theorem C3_release_unconditional (now : Int) (f : StoreFile) (n : String)
    (vps : Option String) (a : AccountRecord)
    (hl : lookupA n (readStore f) = some a) :
    ∃ r, adopt_account now n (some "release") vps f =
        (.released n, .table (insertA n r (get_all_accounts now f).1)) ∧
      lookupA n (readStore (adopt_account now n (some "release") vps f).2) =
        some r ∧
      r.adopted = some false ∧ r.adopted_by = some none ∧
      r.adopted_at = some none ∧ r.token = a.token ∧
      r.profiles = a.profiles := by
  have hl2 : lookupA n (get_all_accounts now f).1 =
      some (reconcileRecord now a).1 := by
    rw [lookup_get_all, hl]; rfl
  have hrel := @adopt_release_ok now n vps f ((reconcileRecord now a).1) hl2
  refine ⟨clearAdoption (reconcileRecord now a).1, hrel, ?_, rfl, rfl, rfl,
    ?_, ?_⟩
  · rw [hrel]
    exact lookupA_insertA_self n _ _
  · simpa [clearAdoption] using (@reconcileRecord_keeps now a).1
  · simpa [clearAdoption] using (@reconcileRecord_keeps now a).2

/-- Witness for C3: a stranger (holder `"zzz"`) releases a live lease held
by `"vps-1"`. -/
theorem C3_release_unconditional_witness :
    lookupA "a" (readStore (.table [("a", heldRec)])) = some heldRec ∧
    ∃ r, adopt_account 100 "a" (some "release") (some "zzz")
        (.table [("a", heldRec)]) =
        (.released "a",
         .table (insertA "a" r
           (get_all_accounts 100 (.table [("a", heldRec)])).1)) ∧
      lookupA "a" (readStore (adopt_account 100 "a" (some "release")
        (some "zzz") (.table [("a", heldRec)])).2) = some r ∧
      r.adopted = some false ∧ r.adopted_by = some none ∧
      r.adopted_at = some none ∧ r.token = heldRec.token ∧
      r.profiles = heldRec.profiles :=
  ⟨by decide,
   C3_release_unconditional 100 (.table [("a", heldRec)]) "a" (some "zzz")
     heldRec (by decide)⟩

/-- Claim C1: for every record in the store with `adopted == true` and a
valid `adopted_at` more than the 5-minute unlock timeout before `now`, every
reconciled load (`get_all_accounts`) clears the lease before the mapping is
returned — for any requester, since the load takes no requester — and no
record in any returned mapping carries an over-age lease. -/
theorem C1_expired_lease_cleared (now t : Int) (f : StoreFile) (n : String)
    (a : AccountRecord)
    (hl : lookupA n (readStore f) = some a)
    (had : a.adopted = some true)
    (hat : a.adopted_at = some (some (TimeStr.valid t)))
    (hexp : now - t > unlockTimeout) :
    lookupA n (get_all_accounts now f).1 = some (clearAdoption a) ∧
      ∀ n2 a2, lookupA n2 (get_all_accounts now f).1 = some a2 →
        ∀ t2, a2.adopted = some true →
          a2.adopted_at = some (some (TimeStr.valid t2)) →
          now - t2 ≤ unlockTimeout := by
  constructor
  · rw [lookup_get_all, hl]
    simp [reconcileRecord_expired had hat hexp]
  · intro n2 a2 h2 t2 ha2 hat2
    rw [lookup_get_all] at h2
    rcases heq : lookupA n2 (readStore f) with _ | b
    · rw [heq] at h2; simp at h2
    · rw [heq] at h2
      simp only [Option.map_some', Option.some.injEq] at h2
      obtain ⟨-, -, -, hbound⟩ := reconcileRecord_normalAt now b
      exact hbound t2 (h2 ▸ ha2) (h2 ▸ hat2)

/-- Witness for C1 at a concrete store and instant. -/
theorem C1_expired_lease_cleared_witness :
    lookupA "a" (readStore (.table [("a", heldRec)])) = some heldRec ∧
    (400 : Int) - 0 > unlockTimeout ∧
    lookupA "a" (get_all_accounts 400 (.table [("a", heldRec)])).1 =
      some (clearAdoption heldRec) :=
  ⟨by decide, by decide,
   (C1_expired_lease_cleared 400 0 (.table [("a", heldRec)]) "a" heldRec
      (by decide) (by decide) (by decide) (by decide)).1⟩

/-- Claim C7: `load` never fails the caller — a missing backing file,
unparseable JSON, or a non-mapping document all read as the empty mapping
(and the reconciled load leaves the file untouched in those cases). -/
theorem C7_load_never_fails (now : Int) :
    get_all_accounts now .missing = ([], .missing) ∧
    get_all_accounts now .corrupt = ([], .corrupt) ∧
    get_all_accounts now .notDict = ([], .notDict) :=
  ⟨rfl, rfl, rfl⟩

/-- Claim C8: after `save_account n tok`, any later reconciled load maps `n`
to a record with the given token, an empty profile list and the unleased
adoption fields — whether or not `n` existed before, an existing record
being fully overwritten. -/
theorem C8_roundtrip (now1 now2 : Int) (f : StoreFile) (n tok : String) :
    ∃ r, lookupA n (get_all_accounts now2 (save_account now1 n tok f).2).1 =
        some r ∧
      r.token = some tok ∧ r.profiles = some [] ∧ r.adopted = some false ∧
      r.adopted_by = some none ∧ r.adopted_at = some none := by
  refine ⟨freshAccount tok, ?_, rfl, rfl, rfl, rfl, rfl⟩
  rw [lookup_get_all]
  have h1 : readStore (save_account now1 n tok f).2 =
      insertA n (freshAccount tok) (get_all_accounts now1 f).1 := rfl
  rw [h1, lookupA_insertA_self]
  simp [@reconcileRecord_free now2 (freshAccount tok) rfl rfl rfl]

/-- Claim C9: a record with `adopted == true` whose `adopted_at` is `null`
or not a valid ISO timestamp is never cleared (and nothing is raised): the
reconciled load at any instant returns it unchanged, so the lease has no
time bound, and any claim by a holder other than the recorded `adopted_by`
fails with Conflict naming that holder. -/
theorem C9_unparseable_lease_persists (now : Int) (f : StoreFile)
    (n hld : String) (b : Option String) (a : AccountRecord)
    (hl : lookupA n (readStore f) = some a)
    (had : a.adopted = some true)
    (hby : a.adopted_by = some b)
    (hat : a.adopted_at = some none ∨
      ∃ s, a.adopted_at = some (some (TimeStr.invalid s)))
    (hne : some hld ≠ b) (hh : hld ≠ "") :
    lookupA n (get_all_accounts now f).1 = some a ∧
    adopt_account now n (some "claim") (some hld) f =
      (.conflict b, (get_all_accounts now f).2) := by
  have hats : a.adopted_at.isSome := by
    rcases hat with h | ⟨s, h⟩ <;> simp [h]
  have hfix : reconcileRecord now a = (a, false) :=
    reconcileRecord_fix ⟨had ▸ rfl, hby ▸ rfl, hats, by
      intro t _ ht
      rcases hat with h | ⟨s, h⟩ <;> rw [h] at ht <;> simp at ht⟩
  have hl2 : lookupA n (get_all_accounts now f).1 = some a := by
    rw [lookup_get_all, hl]
    simp [hfix]
  refine ⟨hl2, ?_⟩
  have hc : (getTruthyBool a.adopted &&
      !(a.adopted_by.getD none == some hld)) = true := by
    rw [had, hby]
    simpa [getTruthyBool] using fun h => hne (by simp [h])
  have := adopt_claim_conflict hl2 hh hc
  rwa [hby] at this

/-- Witness for C9 at a concrete store with a malformed timestamp. -/
theorem C9_unparseable_lease_persists_witness :
    lookupA "c" (readStore (.table [("c", badTimeRec)])) = some badTimeRec ∧
    lookupA "c" (get_all_accounts 100000 (.table [("c", badTimeRec)])).1 =
      some badTimeRec ∧
    adopt_account 100000 "c" (some "claim") (some "vps-2")
        (.table [("c", badTimeRec)]) =
      (.conflict (some "vps-1"), (.table [("c", badTimeRec)])) := by
  have h := C9_unparseable_lease_persists 100000 (.table [("c", badTimeRec)])
    "c" "vps-2" (some "vps-1") badTimeRec (by decide) (by decide) (by decide)
    (Or.inr ⟨"garbage", by decide⟩) (by decide) (by decide)
  exact ⟨by decide, h.1, by rw [h.2]; decide⟩

/-- Counterexample to claim C4: re-claiming by the same holder succeeds but
does NOT leave the record unchanged — `set_adoption` re-stamps `adopted_at`
with the current time.  Concretely: the first claim (at instant 0) stores
`adopted_at = 0`; the second claim by the same holder at instant 100
succeeds and stores `adopted_at = 100 ≠ 0`. -/
theorem C4_counterexample :
    (adopt_account 0 "a" (some "claim") (some "h")
      (.table [("a", freeRec)])).1 = .claimed "a" (some "h") ∧
    (adopt_account 100 "a" (some "claim") (some "h")
        (adopt_account 0 "a" (some "claim") (some "h")
          (.table [("a", freeRec)])).2).1 = .claimed "a" (some "h") ∧
    (lookupA "a" (readStore (adopt_account 0 "a" (some "claim") (some "h")
        (.table [("a", freeRec)])).2)).map AccountRecord.adopted_at =
      some (some (some (TimeStr.valid 0))) ∧
    (lookupA "a" (readStore (adopt_account 100 "a" (some "claim") (some "h")
        (adopt_account 0 "a" (some "claim") (some "h")
          (.table [("a", freeRec)])).2).2)).map AccountRecord.adopted_at =
      some (some (some (TimeStr.valid 100))) ∧
    (some (some (some (TimeStr.valid 100))) :
        Option (Option (Option TimeStr))) ≠
      some (some (some (TimeStr.valid 0))) := by decide

/-- Amended claim C4: claim is idempotent for the same holder in the sense
that `claim(A,H)` then `claim(A,H)` both succeed and leave A held by H — but
the second claim re-stamps `adopted_at` with its own current time
(refreshing the lease), rather than leaving the record unchanged. -/
theorem C4_same_holder_reclaim (now1 now2 : Int) (f : StoreFile)
    (n hld : String) (r : AccountRecord)
    (hl : lookupA n (get_all_accounts now1 f).1 = some r)
    (hh : hld ≠ "")
    (hnc : (getTruthyBool r.adopted &&
      !(r.adopted_by.getD none == some hld)) = false) :
    ∃ f1 f2 r2,
      adopt_account now1 n (some "claim") (some hld) f =
        (.claimed n (some hld), f1) ∧
      adopt_account now2 n (some "claim") (some hld) f1 =
        (.claimed n (some hld), f2) ∧
      lookupA n (readStore f2) = some r2 ∧
      r2.adopted = some true ∧ r2.adopted_by = some (some hld) ∧
      r2.adopted_at = some (some (TimeStr.valid now2)) := by
  have h1 := adopt_claim_ok hl hh hnc
  set r1 : AccountRecord :=
    { r with
        adopted := some true
        adopted_by := some (some hld)
        adopted_at := some (some (TimeStr.valid now1)) } with hr1
  set f1 : StoreFile :=
    .table (insertA n r1 (get_all_accounts now1 f).1) with hf1
  have hl1 : lookupA n (readStore f1) = some r1 := lookupA_insertA_self n _ _
  have hl2 : lookupA n (get_all_accounts now2 f1).1 =
      some (reconcileRecord now2 r1).1 := by
    rw [lookup_get_all, hl1]; rfl
  have hcase : (reconcileRecord now2 r1).1 = r1 ∨
      (reconcileRecord now2 r1).1 = clearAdoption r1 := by
    by_cases hexp : now2 - now1 > unlockTimeout
    · exact Or.inr (reconcileRecord_expired rfl rfl hexp)
    · left
      have hnorm : NormalAt now2 r1 := by
        rw [hr1]
        refine ⟨rfl, rfl, rfl, ?_⟩
        intro t _ ht
        simp only [Option.some.injEq, TimeStr.valid.injEq] at ht
        omega
      rw [reconcileRecord_fix hnorm]
  have hnc2 : (getTruthyBool (reconcileRecord now2 r1).1.adopted &&
      !((reconcileRecord now2 r1).1.adopted_by.getD none == some hld)) =
        false := by
    rcases hcase with h | h <;> rw [h] <;>
      simp [hr1, clearAdoption, getTruthyBool]
  have h2 := adopt_claim_ok hl2 hh hnc2
  refine ⟨f1, _, _, h1, h2, lookupA_insertA_self n _ _, rfl, rfl, rfl⟩

/-- Witness for the amended C4: a fresh same-holder re-claim at instant 100
after a claim at instant 0. -/
theorem C4_same_holder_reclaim_witness :
    lookupA "a" (get_all_accounts 0 (.table [("a", freeRec)])).1 =
      some freeRec ∧
    ∃ f1 f2 r2,
      adopt_account 0 "a" (some "claim") (some "h")
        (.table [("a", freeRec)]) = (.claimed "a" (some "h"), f1) ∧
      adopt_account 100 "a" (some "claim") (some "h") f1 =
        (.claimed "a" (some "h"), f2) ∧
      lookupA "a" (readStore f2) = some r2 ∧
      r2.adopted = some true ∧ r2.adopted_by = some (some "h") ∧
      r2.adopted_at = some (some (TimeStr.valid 100)) :=
  ⟨by decide,
   C4_same_holder_reclaim 0 100 (.table [("a", freeRec)]) "a" "h" freeRec
     (by decide) (by decide) (by decide)⟩

/-- Counterexample to claim C5: the reconciled load does NOT repair a record
whose adoption fields are present but mutually inconsistent — a persisted
record with `adopted=false` and a non-null `adopted_by` is returned to the
caller unchanged, violating the invariant
`adopted == false ⇔ adopted_by == null`. -/
theorem C5_counterexample :
    lookupA "b" (get_all_accounts 0 (.table [("b", oddRec)])).1 =
      some oddRec ∧
    oddRec.adopted = some false ∧ oddRec.adopted_by = some (some "h") ∧
    (some (some "h") : Option (Option String)) ≠ some none := by decide

/-- Amended claim C5: the invariant
`adopted == false ⇔ adopted_by == null ⇔ adopted_at == null` holds for every
record returned by the reconciled load PROVIDED every persisted record
already satisfies it under `dict.get` semantics (missing keys reading as
the unleased defaults); under the same proviso it is preserved by claim,
release and account upsert.  The reconciled load normalizes missing keys
but does not repair present-but-inconsistent field combinations. -/
theorem C5_invariant_preserved (now : Int) (f : StoreFile)
    (n hld tok : String) (vps : Option String)
    (hInv : ∀ p ∈ readStore f, EffInv p.2) (hh : hld ≠ "") :
    (∀ p ∈ (get_all_accounts now f).1, RecInv p.2) ∧
    (∀ p ∈ readStore (adopt_account now n (some "claim") (some hld) f).2,
      RecInv p.2) ∧
    (∀ p ∈ readStore (adopt_account now n (some "release") vps f).2,
      RecInv p.2) ∧
    (∀ p ∈ readStore (save_account now n tok f).2, RecInv p.2) := by
  have hrec : ∀ p ∈ (get_all_accounts now f).1, RecInv p.2 := by
    intro p hp
    obtain ⟨q, hq, hpe⟩ := mem_reconcileList hp
    exact hpe ▸ reconcileRecord_inv (hInv q hq)
  have hsnd : ∀ p ∈ readStore (get_all_accounts now f).2, RecInv p.2 := by
    intro p hp
    rw [readStore_get_all] at hp
    exact hrec p hp
  refine ⟨hrec, ?_, ?_, ?_⟩
  · rcases hlk : lookupA n (get_all_accounts now f).1 with _ | acct
    · rw [adopt_notFound (Or.inl rfl) hlk]
      exact hsnd
    · by_cases hcb : (getTruthyBool acct.adopted &&
        !(acct.adopted_by.getD none == some hld)) = true
      · rw [adopt_claim_conflict hlk hh hcb]
        exact hsnd
      · rw [adopt_claim_ok hlk hh (by simpa using hcb)]
        intro p hp
        rcases mem_insertA hp with rfl | hp2
        · exact ⟨rfl, rfl, rfl, by simp, by simp⟩
        · exact hrec p hp2
  · rcases hlk : lookupA n (get_all_accounts now f).1 with _ | acct
    · rw [adopt_notFound (Or.inr rfl) hlk]
      exact hsnd
    · rw [adopt_release_ok hlk]
      intro p hp
      rcases mem_insertA hp with rfl | hp2
      · exact ⟨rfl, rfl, rfl, by simp [clearAdoption], by simp [clearAdoption]⟩
      · exact hrec p hp2
  · intro p hp
    rcases mem_insertA hp with rfl | hp2
    · exact ⟨rfl, rfl, rfl, by simp [freshAccount], by simp [freshAccount]⟩
    · exact hrec p hp2

/-- Witness for the amended C5 on a store of one consistent record. -/
theorem C5_invariant_preserved_witness :
    (∀ p ∈ readStore (.table [("a", freeRec)] : StoreFile), EffInv p.2) ∧
    (∀ p ∈ (get_all_accounts 0 (.table [("a", freeRec)])).1, RecInv p.2) :=
  ⟨by decide,
   (C5_invariant_preserved 0 (.table [("a", freeRec)]) "a" "h" "tok" none
      (by decide) (by decide)).1⟩

/-- Claim C6: the reconciled load backfills each missing adoption key with
its unleased default; when a record was changed by the pass, the full
mapping is persisted before being returned; and a second reconciled load
returns the same mapping with no further write. -/
theorem C6_backfill_persisted (now : Int) (f : StoreFile) (n : String)
    (a : AccountRecord)
    (hl : lookupA n (readStore f) = some a)
    (hmiss : a.adopted = none ∨ a.adopted_by = none ∨ a.adopted_at = none) :
    (∃ a2, lookupA n (get_all_accounts now f).1 = some a2 ∧
       (a.adopted = none → a2.adopted = some false) ∧
       (a.adopted_by = none → a2.adopted_by = some none) ∧
       (a.adopted_at = none → a2.adopted_at = some none)) ∧
    (get_all_accounts now f).2 = .table (get_all_accounts now f).1 ∧
    get_all_accounts now (get_all_accounts now f).2 =
      ((get_all_accounts now f).1, (get_all_accounts now f).2) := by
  refine ⟨⟨(reconcileRecord now a).1, ?_, ?_, ?_, ?_⟩, ?_, get_all_again now f⟩
  · rw [lookup_get_all, hl]; rfl
  · exact fun h => (reconcileRecord_defaults a).1 h
  · exact fun h => (reconcileRecord_defaults a).2.1 h
  · exact fun h => (reconcileRecord_defaults a).2.2 h
  · have hch : (reconcileList now (readStore f)).2 = true :=
      reconcileList_changed_of_lookup hl
        (reconcileRecord_changed_of_missing hmiss)
    rw [get_all_def]
    simp [hch]

/-- Witness for C6: a legacy record with all adoption keys absent is
backfilled and the mapping persisted. -/
theorem C6_backfill_persisted_witness :
    lookupA "d" (readStore (.table [("d", bareRec)])) = some bareRec ∧
    bareRec.adopted = none ∧
    (get_all_accounts 9 (.table [("d", bareRec)])).2 =
      .table (get_all_accounts 9 (.table [("d", bareRec)])).1 :=
  ⟨by decide, by decide,
   (C6_backfill_persisted 9 (.table [("d", bareRec)]) "d" bareRec
      (by decide) (Or.inl (by decide))).2.1⟩

/-- Claim C10: the profile-stats operations neither read nor write the
account registry: for any app state — whether or not the name is a known
account — saving a non-empty stats body succeeds, stamps `last_updated`,
leaves the accounts file untouched, and a subsequent get returns the
stamped stats; get answers 404 exactly when no stats were ever saved for
the name. -/
theorem C10_stats_independent (now : Int) (n : String) (d : StatsDoc)
    (st : AppState) (hne : d ≠ []) :
    (save_stats now n (some d) st).1 = .savedOk n ∧
    (save_stats now n (some d) st).2.accountsFile = st.accountsFile ∧
    get_stats n (save_stats now n (some d) st).2 =
      .statsBody (insertA "last_updated" (JVal.time (TimeStr.valid now)) d) ∧
    (get_stats n st = .statsNotFound n ↔ lookupA n st.profileStats = none) := by
  have hne2 : d.isEmpty = false := by
    cases d with
    | nil => exact absurd rfl hne
    | cons x xs => rfl
  refine ⟨?_, ?_, ?_, ?_⟩
  · simp [save_stats, hne2]
  · simp [save_stats, hne2, save_profile_stats]
  · simp [save_stats, hne2, get_stats, get_profile_stats, save_profile_stats,
      lookupA_insertA_self]
  · unfold get_stats get_profile_stats
    cases h : lookupA n st.profileStats <;> simp [h]

/-- Witness for C10: stats for a name absent from the (empty) account
store. -/
theorem C10_stats_independent_witness :
    ([("k", JVal.str "v")] : StatsDoc) ≠ [] ∧
    (save_stats 5 "n" (some [("k", JVal.str "v")]) ⟨.missing, []⟩).1 =
      .savedOk "n" ∧
    get_stats "n"
        (save_stats 5 "n" (some [("k", JVal.str "v")]) ⟨.missing, []⟩).2 =
      .statsBody (insertA "last_updated" (JVal.time (TimeStr.valid 5))
        [("k", JVal.str "v")]) :=
  ⟨by decide,
   (C10_stats_independent 5 "n" [("k", JVal.str "v")] ⟨.missing, []⟩
      (by decide)).1,
   (C10_stats_independent 5 "n" [("k", JVal.str "v")] ⟨.missing, []⟩
      (by decide)).2.2.1⟩

end Gologin
